import Mathlib

/-!
Shallow embedding of the callbag bundle (src/unnamed/part_000).

The callbag protocol sends numerically tagged messages over callbacks:
tag 0 is START (greeting, carrying a talkback), tag 1 is DATA (downstream)
or a pull request (upstream), tag 2 is END, optionally carrying an error.
We model a downstream message as `Msg α ε` (START's talkback payload is
elided: the models record talkback invocations as explicit effects) and an
upstream talkback call as `TMsg` (pull for `talkback(1)`, cancel for
`talkback(2)`).

Each stateful operator from the source is embedded as a step function on an
explicit state record: the operator's sink callback becomes a function from
(state, incoming message) to (new state, list of emitted effects), where an
effect is either a message delivered downstream or a talkback call made
upstream.  The effect list preserves the order of the calls in the source.
Closed-loop drivers (forEach over fromIter, concat over finite pull
sources) are embedded as recursions that follow the synchronous call-stack
interleaving of the JavaScript code, justified step by step in the doc
comments.
-/

namespace Callbag

/-- Protocol message travelling downstream (producer to consumer):
`start` for `(0, talkback)`, `data v` for `(1, v)`, `term e` for `(2)` /
`(2, err)` where `e = none` models the absent error payload. -/
inductive Msg (α ε : Type) where
  | start : Msg α ε
  | data : α → Msg α ε
  | term : Option ε → Msg α ε
deriving DecidableEq, Repr

/-- Talkback call travelling upstream (consumer to producer):
`pull` for `talkback(1)` and `cancel` for `talkback(2)`. -/
inductive TMsg where
  | pull : TMsg
  | cancel : TMsg
deriving DecidableEq, Repr

/-! Model of fromIter and forEach (claim C9)

`fromIter` keeps `remaining` (the part of the iterator not yet consumed),
a `got1` flag set by each upstream pull, an `inloop` reentrancy guard and a
`completed` flag set by upstream cancellation.  Its `loop()` runs
`while (got1 && !completed)`: it clears `got1`, steps the iterator, sends
`sink(2)` when done and otherwise `sink(1, value)`.  A sink that pulls from
inside the data callback merely re-sets `got1` (the `inloop` guard stops
recursion), so the while loop keeps running exactly as long as the sink
keeps pulling reentrantly.  `iterLoop pulls` embeds one activation of
`loop()` for a sink whose data callback pulls again exactly when
`pulls v = true`; it returns the remaining elements, whether `res.done`
was reached, and the messages sent to the sink, in order. -/
def iterLoop (pulls : α → Bool) : List α → List α × Bool × List (Msg α ε)
  | [] => ([], true, [.term none])
  | v :: rest =>
    if pulls v then
      let r := iterLoop pulls rest
      (r.1, r.2.1, .data v :: r.2.2)
    else (rest, false, [.data v])

/-- The `forEach` driver (src lines 43-50): on START it stores the talkback
and pulls once, on every DATA it runs `operation(d)` and pulls again, and it
does nothing on END.  Composed with `fromIter S`, the initial pull enters
`loop()` and every data callback pulls reentrantly, so the full delivery is
one `iterLoop` activation with `pulls = fun _ => true`. -/
def forEachFromIter (S : List α) : List (Msg α ε) :=
  (iterLoop (fun _ => true) S).2.2

/-- Values passed to the user callback of `forEach`: `operation(d)` runs
exactly on the messages with tag 1. -/
def forEachCalls (S : List α) : List α :=
  (forEachFromIter (ε := Unit) S).filterMap fun m =>
    match m with
    | .data v => some v
    | _ => none

/-- Number of END messages in a delivered message list. -/
def termCount (ms : List (Msg α ε)) : Nat :=
  ms.countP fun m => match m with | .term _ => true | _ => false

/-! Model of scan (claim C3)

In the source, `scan(reducer, seed)` is `function scan(reducer, seed) {
let hasAcc = arguments.length === 2; return source => (start, sink) => {
let acc = seed; source(0, cb); }; }`.  Note the scoping: `acc` is declared
inside the per-invocation closure, but `hasAcc` is declared once in the
factory, so its mutations persist across invocations of the same scanned
source.  JavaScript values are modelled as `Option σ` with `none` playing
the role of `undefined` (the value of `seed` when no seed argument is
passed, and a value a user reducer may return); the user `reducer` is an
arbitrary function on such values. -/

/-- One reaction of scan's sink callback (src lines 285-290): on DATA,
`acc = hasAcc ? reducer(acc, d) : (hasAcc = true, d); sink(1, acc)`;
START and END are forwarded unchanged.  Returns the new `hasAcc`, the new
`acc`, and the messages sent downstream. -/
def scanOnMsg (reducer : Option σ → Option σ → Option σ) (hasAcc : Bool) (acc : Option σ) :
    Msg (Option σ) ε → Bool × Option σ × List (Msg (Option σ) ε)
  | .data d =>
    let acc' := if hasAcc then reducer acc d else d
    (true, acc', [.data acc'])
  | m => (hasAcc, acc, [m])

/-- One full channel of a scanned source: `acc` starts at the seed value
and the upstream messages are processed in order; returns the final
`hasAcc` (which outlives the channel, see `scanTwoRuns`) and the messages
sent downstream. -/
def scanChannel (reducer : Option σ → Option σ → Option σ) :
    Bool → Option σ → List (Msg (Option σ) ε) → Bool × List (Msg (Option σ) ε)
  | hasAcc, _, [] => (hasAcc, [])
  | hasAcc, acc, m :: ms =>
    let r := scanOnMsg reducer hasAcc acc m
    let rest := scanChannel reducer r.1 r.2.1 ms
    (rest.1, r.2.2 ++ rest.2)

/-- Two successive, independent invocations of the same scanned source.
`seedArg = none` models calling `scan(reducer)` with no seed
(`arguments.length === 2` is false, and `seed` is `undefined`, i.e.
`Option.getD seedArg none = none`).  Each invocation re-initialises `acc`
from the seed, but `hasAcc` carries over from the first run into the
second, exactly as in the source. -/
def scanTwoRuns (reducer : Option σ → Option σ → Option σ) (seedArg : Option (Option σ))
    (ms₁ ms₂ : List (Msg (Option σ) ε)) :
    List (Msg (Option σ) ε) × List (Msg (Option σ) ε) :=
  let seedVal := seedArg.getD none
  let r₁ := scanChannel reducer seedArg.isSome seedVal ms₁
  let r₂ := scanChannel reducer r₁.1 seedVal ms₂
  (r₁.2, r₂.2)

/-- JavaScript addition as a user reducer: `(a, v) => a + v`, where adding
`undefined` yields a non-number (`NaN`), modelled as `none`. -/
def jsAdd : Option Nat → Option Nat → Option Nat
  | some a, some b => some (a + b)
  | _, _ => none

/-! Model of take (claim C5)

`take(max)` (src lines 340-367) keeps a `taken` counter.  Its downstream
talkback forwards any call upstream only while `taken < max`; its sink
callback forwards DATA while `taken < max`, and upon the `max`-th item
sends `sink(1, d)`, then `sink(2)`, then `sourceTalkback(2)`.  Effects
record, in call order, the messages sent downstream and the talkback calls
made upstream. -/

/-- Effect emitted by the take operator: a message delivered downstream or
a call on the upstream talkback. -/
inductive TakeEff (α ε : Type) where
  | down : Msg α ε → TakeEff α ε
  | up : TMsg → TakeEff α ε
deriving DecidableEq, Repr

/-- One reaction of take's sink callback to an upstream message. -/
def takeOnMsg (max taken : Nat) : Msg α ε → Nat × List (TakeEff α ε)
  | .start => (taken, [.down .start])
  | .data v =>
    if taken < max then
      let taken' := taken + 1
      if taken' = max then (taken', [.down (.data v), .down (.term none), .up .cancel])
      else (taken', [.down (.data v)])
    else (taken, [])
  | .term e => (taken, [.down (.term e)])

/-- The talkback take hands downstream: any call is forwarded to the
upstream talkback only while `taken < max` and is silently dropped
afterwards. -/
def takeTalkback (α ε : Type) (max taken : Nat) (t : TMsg) : List (TakeEff α ε) :=
  if taken < max then [.up t] else []

/-- Processing a whole upstream message trace through take, threading the
`taken` counter. -/
def takeRun (max : Nat) : Nat → List (Msg α ε) → List (TakeEff α ε)
  | _, [] => []
  | taken, m :: ms =>
    let r := takeOnMsg max taken m
    r.2 ++ takeRun max r.1 ms

/-- Number of DATA messages forwarded downstream in an effect list. -/
def downDataCount : List (TakeEff α ε) → Nat
  | [] => 0
  | .down (.data _) :: es => downDataCount es + 1
  | _ :: es => downDataCount es

/-- Number of cancellations sent upstream in an effect list. -/
def upCancelCount : List (TakeEff α ε) → Nat
  | [] => 0
  | .up .cancel :: es => upCancelCount es + 1
  | _ :: es => upCancelCount es

/-- Number of DATA messages in an upstream trace. -/
def dataCount : List (Msg α ε) → Nat
  | [] => 0
  | .data _ :: ms => dataCount ms + 1
  | _ :: ms => dataCount ms

/-! Model of merge (claims C1 and C2)

`merge(...sources)` (src lines 449-475) subscribes every source in a `for`
loop.  The per-source sink callback stores the source's talkback on START
and emits the combined START downstream when `++startCount === 1`; on END
it clears the slot and emits a plain `sink(2)` downstream when
`++endCount === n`; DATA is forwarded as-is.  With zero sources the loop
body never runs, so the downstream sink is never called at all.  Events of
a run are pairs `(i, m)` of a source index `i : Fin n` and the message `m`
that source delivered; with `n = 0` the event type is empty, matching the
fact that no source ever calls back. -/

/-- Mutable state of one merge invocation: which talkback slots are
occupied, plus the start and end counters. -/
structure MergeSt where
  tbs : List Bool
  startCount : Nat
  endCount : Nat
deriving DecidableEq, Repr

/-- Effect emitted by merge: a downstream message, or a call on the
talkback of source `i`. -/
inductive MergeEff (α ε : Type) where
  | down : Msg α ε → MergeEff α ε
  | up : Nat → TMsg → MergeEff α ε
deriving DecidableEq, Repr

/-- Initial merge state: `new Array(n)` of empty talkback slots and both
counters at zero. -/
def mergeInit (n : Nat) : MergeSt := ⟨List.replicate n false, 0, 0⟩

/-- One reaction of merge's per-source sink callback (src lines 464-472)
for source `i`. -/
def mergeOnMsg (n : Nat) (st : MergeSt) (i : Nat) : Msg α ε → MergeSt × List (MergeEff α ε)
  | .start =>
    let st' := { st with tbs := st.tbs.set i true, startCount := st.startCount + 1 }
    (st', if st'.startCount = 1 then [.down .start] else [])
  | .data v => (st, [.down (.data v)])
  | .term _ =>
    let st' := { st with tbs := st.tbs.set i false, endCount := st.endCount + 1 }
    (st', if st'.endCount = n then [.down (.term none)] else [])

/-- The combined talkback merge hands downstream (src lines 457-461):
ignores tag 0 and broadcasts the call to every still-occupied talkback
slot, in index order. -/
def mergeTalkback (st : MergeSt) (t : TMsg) : List (MergeEff α ε) :=
  ((List.range st.tbs.length).filter fun i => st.tbs.getD i false).map fun i => .up i t

/-- Processing a trace of per-source events through one merge invocation. -/
def mergeRun (n : Nat) (st : MergeSt) : List (Fin n × Msg α ε) → MergeSt × List (MergeEff α ε)
  | [] => (st, [])
  | (i, m) :: evs =>
    let r := mergeOnMsg n st i.val m
    let rest := mergeRun n r.1 evs
    (rest.1, r.2 ++ rest.2)

/-! Model of sample (claim C2)

`sample(pullable)(listenable)` (src lines 800-831) wires two upstream
sides.  On the listenable's START it subscribes the pullable and greets the
sink; every listenable DATA becomes one pull on the pullable; the
pullable's DATA is forwarded downstream.  Either side's END — the code
tests only the tag, so END-with-error takes the same branch — cancels the
other side and then sends a bare `sink(2)`, dropping any error payload. -/

/-- Effect emitted by sample: a downstream message, a call on the pullable
talkback, a call on the listenable talkback, or the subscription of the
pullable source. -/
inductive SampleEff (α ε : Type) where
  | down : Msg α ε → SampleEff α ε
  | upP : TMsg → SampleEff α ε
  | upL : TMsg → SampleEff α ε
  | subP : SampleEff α ε
deriving DecidableEq, Repr

/-- Reaction of sample's pullable-side callback (src lines 807-815):
`pt === 0` only stores the talkback, `pt === 1` forwards the datum, and
`pt === 2` cancels the listenable and sends a payload-less END. -/
def sampleOnPull : Msg α ε → List (SampleEff α ε)
  | .start => []
  | .data v => [.down (.data v)]
  | .term _ => [.upL .cancel, .down (.term none)]

/-- Reaction of sample's listenable-side callback (src lines 804-830):
`lt === 0` subscribes the pullable then greets the sink, `lt === 1` pulls
the pullable once, and `lt === 2` cancels the pullable and sends a
payload-less END. -/
def sampleOnListen : Msg α ε → List (SampleEff α ε)
  | .start => [.subP, .down .start]
  | .data _ => [.upP .pull]
  | .term _ => [.upP .cancel, .down (.term none)]

/-! Model of combine (claims C2 and C6)

`combine(...sources)` (src lines 571-622) keeps `vals` (with the sentinel
`EMPTY` modelled as `none`), a start countdown `Ns`, a first-value
countdown `Nd` and an end countdown `Ne`.  On DATA from source `i` it
computes `_Nd = !Nd ? 0 : (vals[i] === EMPTY ? --Nd : Nd)`, stores the
datum, and when `_Nd === 0` copies `vals` into a fresh array and emits it
downstream.  On END it decrements `Ne` and emits a bare `sink(2)` when all
sources have ended.  The per-source callback never touches the sibling
talkbacks. -/

/-- Mutable state of one combine invocation. -/
structure CombineSt (σ : Type) where
  vals : List (Option σ)
  Ns : Nat
  Nd : Nat
  Ne : Nat
deriving DecidableEq, Repr

/-- Effect emitted by combine's per-source callback: a downstream message
(whose DATA payload is the copied array of latest values) or a call on the
talkback of source `i` (never emitted by the callback, which is exactly
what claim C2 is about). -/
inductive CombineEff (σ ε : Type) where
  | down : Msg (List (Option σ)) ε → CombineEff σ ε
  | up : Nat → TMsg → CombineEff σ ε
deriving DecidableEq, Repr

/-- Initial combine state for `n` sources: every slot `EMPTY`, all three
countdowns at `n`. -/
def combineInit (σ : Type) (n : Nat) : CombineSt σ := ⟨List.replicate n none, n, n, n⟩

/-- One reaction of combine's per-source sink callback (src lines
599-620) for source `i`. -/
def combineOnMsg (st : CombineSt σ) (i : Nat) :
    Msg σ ε → CombineSt σ × List (CombineEff σ ε)
  | .start =>
    let st' := { st with Ns := st.Ns - 1 }
    (st', if st'.Ns = 0 then [.down .start] else [])
  | .data v =>
    let nd := if st.Nd = 0 then 0 else if (st.vals.getD i none).isNone then st.Nd - 1 else st.Nd
    let vals' := st.vals.set i (some v)
    let st' := { st with Nd := nd, vals := vals' }
    (st', if nd = 0 then [.down (.data vals')] else [])
  | .term _ =>
    let st' := { st with Ne := st.Ne - 1 }
    (st', if st'.Ne = 0 then [.down (.term none)] else [])

/-- The combined talkback combine hands downstream (src lines 591-595):
ignores tag 0 and broadcasts to every source's talkback in index order. -/
def combineTalkback (n : Nat) (t : TMsg) : List (CombineEff σ ε) :=
  (List.range n).map fun i => .up i t

/-- Processing a trace of per-source events through one combine
invocation. -/
def combineRun (n : Nat) (st : CombineSt σ) :
    List (Fin n × Msg σ ε) → CombineSt σ × List (CombineEff σ ε)
  | [] => (st, [])
  | (i, m) :: evs =>
    let r := combineOnMsg st i.val m
    let rest := combineRun n r.1 evs
    (rest.1, r.2 ++ rest.2)

/-- DATA payloads delivered downstream by combine, in order. -/
def combineDataOut (effs : List (CombineEff σ ε)) : List (List (Option σ)) :=
  effs.filterMap fun e => match e with | .down (.data arr) => some arr | _ => none

/-- Spec-side model of combine's emissions, written from the spec's words:
keep a positional array of the latest value seen from each source; on each
DATA event update that slot, and emit the full array exactly when every
source has emitted at least one value (which covers both the first
emission, "all slots filled", and every later re-emission). -/
def combineSpecOut (latest : List (Option σ)) :
    List (Fin n × Msg σ ε) → List (List (Option σ))
  | [] => []
  | (i, .data v) :: evs =>
    let latest' := latest.set i (some v)
    (if latest'.all Option.isSome then [latest'] else []) ++ combineSpecOut latest' evs
  | _ :: evs => combineSpecOut latest evs

/-! Model of flatten (claim C4)

`flatten` (src lines 294-338) runs at most one inner source at a time.
The outer callback: on START it stores the outer talkback and greets the
sink; on DATA it cancels any current inner talkback and subscribes the new
inner source (whose own START stores the inner talkback and immediately
pulls it once); on END without error it either ends downstream (no inner
active) or records `outerEnded`; on END with error it forwards
`sink(2, D)` — and nothing else.  The inner callback: DATA is forwarded;
END without error either ends downstream (outer already ended) or clears
the inner slot and pulls the outer for the next inner source; END with
error forwards `sink(2, d)` — again nothing else.  Events name which side
delivered the message; the inner source's identity is irrelevant to the
claims and is elided from the outer DATA event. -/

/-- Mutable state of one flatten invocation: whether the outer source has
ended, and whether the inner and outer talkback slots are occupied. -/
structure FlatSt where
  outerEnded : Bool
  hasInner : Bool
  hasOuter : Bool
deriving DecidableEq, Repr

/-- Event arriving at flatten: a message from the outer source (its DATA
payload, an inner source, is elided) or from the currently subscribed
inner source. -/
inductive FlatEv (α ε : Type) where
  | outerStart : FlatEv α ε
  | outerData : FlatEv α ε
  | outerTerm : Option ε → FlatEv α ε
  | innerStart : FlatEv α ε
  | innerData : α → FlatEv α ε
  | innerTerm : Option ε → FlatEv α ε
deriving DecidableEq, Repr

/-- Effect emitted by flatten: a downstream message, a call on the inner
or outer talkback, or the subscription of a new inner source. -/
inductive FlatEff (α ε : Type) where
  | down : Msg α ε → FlatEff α ε
  | cancelInner : FlatEff α ε
  | cancelOuter : FlatEff α ε
  | pullInner : FlatEff α ε
  | pullOuter : FlatEff α ε
  | subInner : FlatEff α ε
deriving DecidableEq, Repr

/-- One reaction of flatten to an event, transcribed branch by branch from
the nested callbacks in the source. -/
def flattenStep (st : FlatSt) : FlatEv α ε → FlatSt × List (FlatEff α ε)
  | .outerStart => ({ st with hasOuter := true }, [.down .start])
  | .outerData => (st, (if st.hasInner then [.cancelInner] else []) ++ [.subInner])
  | .outerTerm none =>
    if st.hasInner then ({ st with outerEnded := true }, [])
    else (st, [.down (.term none)])
  | .outerTerm (some e) => (st, [.down (.term (some e))])
  | .innerStart => ({ st with hasInner := true }, [.pullInner])
  | .innerData v => (st, [.down (.data v)])
  | .innerTerm none =>
    if st.outerEnded then (st, [.down (.term none)])
    else ({ st with hasInner := false }, [.pullOuter])
  | .innerTerm (some e) => (st, [.down (.term (some e))])

/-- The talkback flatten hands downstream (src lines 307-314): a pull goes
to the inner talkback if present, else to the outer one; a cancel goes to
whichever of the inner and outer talkbacks are present, inner first. -/
def flattenTalkback (st : FlatSt) : TMsg → List (FlatEff α ε)
  | .pull =>
    if st.hasInner then [.pullInner] else if st.hasOuter then [.pullOuter] else []
  | .cancel =>
    (if st.hasInner then [.cancelInner] else []) ++ (if st.hasOuter then [.cancelOuter] else [])

/-! Model of concat (claim C7)

`concat(...sources)` (src lines 502-539) subscribes one source at a time
through `next()`, tracking the index `i` of the active source.  The shared
sink callback: on START it stores the talkback and, for the first source,
greets the downstream sink, while every later source instead receives a
synthetic `sourceTalkback(1)`; DATA is forwarded verbatim; on END it
increments `i` and calls `next()`, which either subscribes the next source
or, past the last one, sends `sink(2)`.  With zero sources concat greets
with an inert talkback and ends at once.

`concatRunTraces` feeds each source's message trace in order: a source
only speaks between its subscription (raised by the previous source's END)
and its own END, which is exactly the callbag contract for well-formed
sources. -/

/-- Effect emitted by concat: a downstream message, a call on the
currently active source's talkback, or the subscription of source `i`. -/
inductive ConcatEff (α ε : Type) where
  | down : Msg α ε → ConcatEff α ε
  | upCur : TMsg → ConcatEff α ε
  | subscribe : Nat → ConcatEff α ε
deriving DecidableEq, Repr

/-- One reaction of concat's shared sink callback, with `idx` the index of
the currently active source (the mutable `i` of the source code). -/
def concatOnMsg (n idx : Nat) : Msg α ε → Nat × List (ConcatEff α ε)
  | .start => (idx, if idx = 0 then [.down .start] else [.upCur .pull])
  | .data v => (idx, [.down (.data v)])
  | .term _ =>
    (idx + 1, if idx + 1 = n then [.down (.term none)] else [.subscribe (idx + 1)])

/-- The talkback concat hands downstream (src lines 515-519): pulls and
cancellations are forwarded to the currently active source's talkback. -/
def concatTalkback (t : TMsg) : List (ConcatEff α ε) := [.upCur t]

/-- Folding one source's message trace through concat's callback. -/
def concatFold (n : Nat) : Nat → List (Msg α ε) → Nat × List (ConcatEff α ε)
  | idx, [] => (idx, [])
  | idx, m :: ms =>
    let r := concatOnMsg n idx m
    let rest := concatFold n r.1 ms
    (rest.1, r.2 ++ rest.2)

/-- Feeding the traces of the successive sources, in subscription order. -/
def concatGo (n : Nat) : Nat → List (List (Msg α ε)) → List (ConcatEff α ε)
  | _, [] => []
  | idx, tr :: trs =>
    let r := concatFold n idx tr
    r.2 ++ concatGo n r.1 trs

/-- A whole concat invocation over `n` sources: with zero sources it
greets and ends immediately (src lines 506-510); otherwise `next()`
subscribes source 0 and the sources' traces unfold in order. -/
def concatRunTraces (n : Nat) (trs : List (List (Msg α ε))) : List (ConcatEff α ε) :=
  if n = 0 then [.down .start, .down (.term none)]
  else .subscribe 0 :: concatGo n 0 trs

/-- The message trace of a well-formed finite pull source producing the
values `L`: one START, the data in order, then a clean END. -/
def srcTrace (L : List α) : List (Msg α ε) :=
  .start :: L.map .data ++ [.term none]

/-- The expected effect trace of concat from source index `k` on, one
segment per remaining source: the first segment (k = 0) opens with the
downstream START, every later segment opens with the synthetic pull sent
to that source upon its START; the segment body forwards the source's
data; and the segment closes by subscribing the next source — or, for the
last source, by the single downstream END. -/
def concatSegs (n : Nat) : Nat → List (List α) → List (ConcatEff α ε)
  | _, [] => []
  | k, L :: rest =>
    (if k = 0 then [.down .start] else [.upCur .pull]) ++ L.map (fun v => .down (.data v))
      ++ (if k + 1 = n then [.down (.term none)] else [.subscribe (k + 1)])
      ++ concatSegs n (k + 1) rest

/-- Messages delivered downstream within a concat effect trace. -/
def concatDown (effs : List (ConcatEff α ε)) : List (Msg α ε) :=
  effs.filterMap fun e => match e with | .down m => some m | _ => none

/-! Model of share (claim C8)

`share(source)` (src lines 624-657) keeps a list `sinks` of attached
sinks.  A new attach pushes the sink; if it is the only one, the upstream
is subscribed (its START later greets that first sink), otherwise the sink
is greeted immediately.  Upstream DATA and END are broadcast to a snapshot
`sinks.slice(0)` of the current sinks; END additionally clears the list.
The per-sink talkback forwards pulls upstream; a cancel removes that sink
and, when the list becomes empty, cancels the upstream.  Sinks are named
by numbers (JavaScript object identity); events say which sink attaches,
which side speaks, and which sink's talkback is called. -/

/-- Mutable state of a share wrapper: the attached sinks in attach order,
and which sink's attach performed the current upstream subscription (the
closure's `sink` variable inside the `sinks.length === 1` branch). -/
structure ShareSt where
  sinks : List Nat
  starter : Option Nat
deriving DecidableEq, Repr

/-- Event arriving at share: a sink attaches, the upstream delivers a
message, or an attached sink invokes its talkback. -/
inductive ShareEv (α ε : Type) where
  | attach : Nat → ShareEv α ε
  | up : Msg α ε → ShareEv α ε
  | tb : Nat → TMsg → ShareEv α ε
deriving DecidableEq, Repr

/-- Effect emitted by share: a fresh subscription of the upstream source,
the delivery of a message to one sink, or a call on the upstream
talkback. -/
inductive ShareEff (α ε : Type) where
  | subscribeUp : ShareEff α ε
  | deliver : Nat → Msg α ε → ShareEff α ε
  | upCall : TMsg → ShareEff α ε
deriving DecidableEq, Repr

/-- One reaction of the share wrapper to an event, transcribed from the
source: attach pushes and either subscribes the upstream (first sink) or
greets at once; upstream START greets the subscribing sink; upstream DATA
and END are broadcast to the snapshot of current sinks, END clearing the
list; a talkback pull goes upstream, a talkback cancel removes the sink
and cancels the upstream when the list empties. -/
def shareStep (st : ShareSt) : ShareEv α ε → ShareSt × List (ShareEff α ε)
  | .attach k =>
    let sinks' := st.sinks ++ [k]
    if sinks'.length = 1 then ({ sinks := sinks', starter := some k }, [.subscribeUp])
    else ({ st with sinks := sinks' }, [.deliver k .start])
  | .up .start =>
    (st, match st.starter with | some k => [.deliver k .start] | none => [])
  | .up (.data v) => (st, st.sinks.map fun k => .deliver k (.data v))
  | .up (.term e) => ({ st with sinks := [] }, st.sinks.map fun k => .deliver k (.term e))
  | .tb _ .pull => (st, [.upCall .pull])
  | .tb k .cancel =>
    let sinks' := st.sinks.erase k
    ({ st with sinks := sinks' }, if sinks' = [] then [.upCall .cancel] else [])

/-- Processing an event trace through a share wrapper. -/
def shareRun (st : ShareSt) : List (ShareEv α ε) → ShareSt × List (ShareEff α ε)
  | [] => (st, [])
  | e :: evs =>
    let r := shareStep st e
    let rest := shareRun r.1 evs
    (rest.1, r.2 ++ rest.2)

/-- Number of upstream subscriptions in a share effect list. -/
def subUpCount : List (ShareEff α ε) → Nat
  | [] => 0
  | .subscribeUp :: es => subUpCount es + 1
  | _ :: es => subUpCount es

/-- Number of attach events that find the sink registry empty, stepping
the state along the run; the upstream is (re)subscribed exactly at such
attaches. -/
def attachesAtEmpty (st : ShareSt) : List (ShareEv α ε) → Nat
  | [] => 0
  | e :: evs =>
    (match e with | .attach _ => if st.sinks = [] then 1 else 0 | _ => 0) +
      attachesAtEmpty (shareStep st e).1 evs

/-- True on events that carry upstream DATA. -/
def isUpData : ShareEv α ε → Bool
  | .up (.data _) => true
  | _ => false

/-! Model of makeSubject (claim C10)

`makeSubject` (src lines 885-906) keeps a list `sinks`.  Subscribing
(tag 0) pushes the sink and hands it a talkback that, on tag 2, splices the
sink out of the live list.  Pushing a message takes a snapshot
`zinkz = sinks.slice(0)` and, for each sink of the snapshot in order,
re-checks `sinks.indexOf(sink) > -1` against the live (mutating) list
before delivering.  Delivering runs the sink's callback, which may
detach sinks (via their talkbacks) or attach new ones (by subscribing);
those reactions are modelled by a function from the sink to the list of
registry actions its callback performs on receiving this message. -/

/-- A registry action a sink's callback may perform during a dispatch:
detaching a sink (its talkback's tag-2 branch, `splice` of the first
occurrence) or attaching a new one (`push`). -/
inductive SubjAct where
  | detach : Nat → SubjAct
  | attach : Nat → SubjAct
deriving DecidableEq, Repr

/-- Applying a callback's registry actions to the live sink list, in
order. -/
def applyActs (acts : List SubjAct) (live : List Nat) : List Nat :=
  acts.foldl (fun l a => match a with | .detach j => l.erase j | .attach j => l ++ [j]) live

/-- The subject's dispatch loop: walk the snapshot, deliver to each sink
still present in the live list (running its reactions against that list),
and skip sinks that are gone.  Returns the final live list and the sinks
that received the message, in delivery order. -/
def subjDispatch (f : Nat → List SubjAct) : List Nat → List Nat → List Nat × List Nat
  | [], live => (live, [])
  | k :: rest, live =>
    if k ∈ live then
      let r := subjDispatch f rest (applyActs (f k) live)
      (r.1, k :: r.2)
    else subjDispatch f rest live

/-- Pushing one message into a subject whose attached sinks are `sinks`:
the snapshot taken at push time is the live list itself. -/
def subjectPush (sinks : List Nat) (f : Nat → List SubjAct) : List Nat × List Nat :=
  subjDispatch f sinks sinks

/-- Reactions used by the C10 witness: sink 1's callback detaches sink 2
and attaches a new sink 9; every other sink does nothing. -/
def subjWitnessActs : Nat → List SubjAct :=
  fun k => if k = 1 then [.detach 2, .attach 9] else []

/-- Number of `EMPTY` (`none`) slots in a combine value array; the code's
`Nd` countdown tracks exactly this quantity. -/
def noneCount : List (Option σ) → Nat
  | [] => 0
  | none :: l => noneCount l + 1
  | some _ :: l => noneCount l

theorem termCount_map_data_append_term (S : List α) (e : Option ε) :
    termCount (S.map .data ++ [.term e]) = 1 := by
  induction S with
  | nil => rfl
  | cons v rest ih =>
    simp only [List.map_cons, List.cons_append, termCount, List.countP_cons] at ih ⊢
    simp [ih]

theorem iterLoop_always_pull (S : List α) :
    iterLoop (ε := ε) (fun _ => true) S = ([], true, S.map .data ++ [.term none]) := by
  induction S with
  | nil => rfl
  | cons v rest ih => simp [iterLoop, ih]

/-- C9: draining `fromIter S` with `forEach` invokes the user callback
exactly once per element of `S`, in order, with no extra and no missing
items, and the channel terminates with a single END. -/
theorem forEach_fromIter_C9 (S : List α) :
    forEachCalls S = S ∧
    forEachFromIter (ε := Unit) S = S.map .data ++ [.term none] ∧
    termCount (forEachFromIter (ε := Unit) S) = 1 := by
  refine ⟨?_, ?_, ?_⟩
  · simp only [forEachCalls, forEachFromIter, iterLoop_always_pull, List.filterMap_append,
      List.filterMap_map]
    simp [Function.comp_def]
  · simp [forEachFromIter, iterLoop_always_pull]
  · simp only [forEachFromIter, iterLoop_always_pull]
    exact termCount_map_data_append_term S none

theorem downDataCount_append (a b : List (TakeEff α ε)) :
    downDataCount (a ++ b) = downDataCount a + downDataCount b := by
  induction a with
  | nil => simp [downDataCount]
  | cons e es ih =>
    cases e with
    | down m =>
      cases m with
      | start => simp [downDataCount, ih]
      | data v => simp [downDataCount, ih]; omega
      | term e => simp [downDataCount, ih]
    | up t => simp [downDataCount, ih]

theorem upCancelCount_append (a b : List (TakeEff α ε)) :
    upCancelCount (a ++ b) = upCancelCount a + upCancelCount b := by
  induction a with
  | nil => simp [upCancelCount]
  | cons e es ih =>
    cases e with
    | down m => simp [upCancelCount, ih]
    | up t =>
      cases t with
      | pull => simp [upCancelCount, ih]
      | cancel => simp [upCancelCount, ih]; omega

theorem take_downData_le (max : Nat) (ms : List (Msg α ε)) :
    ∀ taken, taken ≤ max → downDataCount (takeRun max taken ms) ≤ max - taken := by
  induction ms with
  | nil => intro taken h; simp [takeRun, downDataCount]
  | cons m ms ih =>
    intro taken h
    cases m with
    | start =>
      have hrec := ih taken h
      simp [takeRun, takeOnMsg, downDataCount_append, downDataCount]
      omega
    | data v =>
      by_cases h1 : taken < max
      · by_cases h2 : taken + 1 = max
        · have hrec := ih (taken + 1) (by omega)
          simp [takeRun, takeOnMsg, if_pos h1, if_pos h2, downDataCount_append, downDataCount]
          omega
        · have hrec := ih (taken + 1) (by omega)
          simp [takeRun, takeOnMsg, if_pos h1, if_neg h2, downDataCount_append, downDataCount]
          omega
      · have hrec := ih taken h
        simp [takeRun, takeOnMsg, if_neg h1, downDataCount_append, downDataCount]
        omega
    | term e =>
      have hrec := ih taken h
      simp [takeRun, takeOnMsg, downDataCount_append, downDataCount]
      omega

theorem take_cancel_zero (max : Nat) (ms : List (Msg α ε)) :
    ∀ taken, max ≤ taken → upCancelCount (takeRun max taken ms) = 0 := by
  induction ms with
  | nil => intro taken h; simp [takeRun, upCancelCount]
  | cons m ms ih =>
    intro taken h
    cases m with
    | start =>
      have hrec := ih taken h
      simp [takeRun, takeOnMsg, upCancelCount_append, upCancelCount]
      omega
    | data v =>
      have h1 : ¬taken < max := by omega
      have hrec := ih taken h
      simp [takeRun, takeOnMsg, if_neg h1, upCancelCount_append, upCancelCount]
      omega
    | term e =>
      have hrec := ih taken h
      simp [takeRun, takeOnMsg, upCancelCount_append, upCancelCount]
      omega

theorem take_cancel_eq (max : Nat) (ms : List (Msg α ε)) :
    ∀ taken, taken < max →
      upCancelCount (takeRun max taken ms) =
        if max ≤ taken + dataCount ms then 1 else 0 := by
  induction ms with
  | nil =>
    intro taken h
    simp only [takeRun, upCancelCount, dataCount]
    rw [if_neg (by omega)]
  | cons m ms ih =>
    intro taken h
    cases m with
    | start =>
      have hrec := ih taken h
      simp [takeRun, takeOnMsg, upCancelCount_append, upCancelCount, dataCount]
      rw [hrec]
    | data v =>
      by_cases h2 : taken + 1 = max
      · have hrec := take_cancel_zero max ms (taken + 1) (by omega)
        simp [takeRun, takeOnMsg, if_pos h, if_pos h2, upCancelCount_append, upCancelCount,
          dataCount]
        rw [hrec, if_pos (by omega)]
      · have hrec := ih (taken + 1) (by omega)
        simp [takeRun, takeOnMsg, if_pos h, if_neg h2, upCancelCount_append, upCancelCount,
          dataCount]
        rw [hrec]
        split_ifs with h3 h4 <;> omega
    | term e =>
      have hrec := ih taken h
      simp [takeRun, takeOnMsg, upCancelCount_append, upCancelCount, dataCount]
      rw [hrec]

/-- C5: take(n) forwards at most n DATA items; upon receiving the n-th it
forwards the item, then END downstream, then the upstream cancellation, in
that order; any talkback call after the limit is a silent no-op; and over
any upstream trace the cancellation is issued exactly once as soon as the
trace carries at least n DATA items, never more. -/
theorem take_limit_C5 (α ε : Type) (max : Nat) (hmax : 1 ≤ max) :
    (∀ ms : List (Msg α ε), downDataCount (takeRun max 0 ms) ≤ max) ∧
    (∀ (v : α) (taken : Nat), taken + 1 = max →
      takeOnMsg (ε := ε) max taken (.data v) =
        (max, [.down (.data v), .down (.term none), .up .cancel])) ∧
    (∀ (t : TMsg) (taken : Nat), max ≤ taken → takeTalkback α ε max taken t = []) ∧
    (∀ ms : List (Msg α ε),
      upCancelCount (takeRun max 0 ms) = if max ≤ dataCount ms then 1 else 0) := by
  refine ⟨?_, ?_, ?_, ?_⟩
  · intro ms
    simpa using take_downData_le max ms 0 (by omega)
  · intro v taken h2
    have h1 : taken < max := by omega
    simp [takeOnMsg, if_pos h1, h2]
  · intro t taken h
    simp [takeTalkback, Nat.not_lt.mpr h]
  · intro ms
    simpa using take_cancel_eq max ms 0 (by omega)

/-- C5 witness: a concrete run with `take(2)` over three data items. -/
theorem take_limit_C5_witness :
    downDataCount (takeRun 2 0 ([.data 5, .data 6, .data 7] : List (Msg Nat Nat))) ≤ 2 ∧
    takeOnMsg 2 1 (.data 9) =
      ((2 : Nat), ([.down (.data 9), .down (.term none), .up .cancel] : List (TakeEff Nat Nat))) ∧
    takeTalkback Nat Nat 2 2 TMsg.pull = [] ∧
    upCancelCount (takeRun 2 0 ([.data 5, .data 6, .data 7] : List (Msg Nat Nat))) =
      if 2 ≤ dataCount ([.data 5, .data 6, .data 7] : List (Msg Nat Nat)) then 1 else 0 := by
  refine ⟨(take_limit_C5 Nat Nat 2 (by decide)).1 _,
    (take_limit_C5 Nat Nat 2 (by decide)).2.1 9 1 (by decide),
    (take_limit_C5 Nat Nat 2 (by decide)).2.2.1 TMsg.pull 2 (by decide),
    (take_limit_C5 Nat Nat 2 (by decide)).2.2.2 _⟩

/-- C3: evaluating the code at the failing input.  `scan((a,v) => a+v)`
without a seed, first invocation over the single item `1`, second
independent invocation over the single item `5`.  The first channel
forwards its first item as-is (`data (some 1)`), as the claim states, but
the second channel emits `reducer(undefined, 5) = none` instead of
forwarding `5` as-is: the `hasAcc` flag survived the first channel, so the
accumulator state is not discarded at END. -/
theorem scan_second_invocation_C3 :
    scanTwoRuns (ε := Unit) jsAdd none
        [.data (some 1), .term none] [.data (some 5), .term none] =
      ([.data (some 1), .term none], [.data none, .term none]) ∧
    Msg.data (some 5) ∉
      (scanTwoRuns (ε := Unit) jsAdd none
        [.data (some 1), .term none] [.data (some 5), .term none]).2 := by
  constructor
  · rfl
  · decide

/-- C1 counterexample: invoking `merge()` with zero sources.  The
subscription loop never runs, so the downstream sink receives nothing —
the effect trace of the whole (necessarily eventless) run is empty, and in
particular does not begin with the START the claim promises. -/
theorem merge_zero_no_start_C1_cex :
    (mergeRun 0 (mergeInit 0) ([] : List (Fin 0 × Msg Nat Nat))).2 = [] ∧
    ∀ rest, (mergeRun 0 (mergeInit 0) ([] : List (Fin 0 × Msg Nat Nat))).2 ≠
      MergeEff.down .start :: rest := by
  refine ⟨rfl, fun rest h => ?_⟩
  simp [mergeRun] at h

/-- C1 amended: merge of zero sources never calls the downstream sink at
all — no START (so no talkback, inert or otherwise), no DATA, and no END.
With no sources there are no per-source events (`Fin 0` is empty), and the
computed effect list is empty for every conceivable trace. -/
theorem merge_zero_silent_C1 (evs : List (Fin 0 × Msg α ε)) :
    (mergeRun 0 (mergeInit 0) evs).2 = [] := by
  match evs with
  | [] => rfl
  | (i, _) :: _ => exact absurd i.isLt (Nat.not_lt_zero _)

theorem noneCount_replicate (n : Nat) :
    noneCount (List.replicate n (none : Option σ)) = n := by
  induction n with
  | zero => rfl
  | succ n ih => simp [List.replicate, noneCount, ih]

theorem noneCount_pos_of_getD_none (l : List (Option σ)) :
    ∀ i, i < l.length → (l.getD i none).isNone = true → 1 ≤ noneCount l := by
  induction l with
  | nil => intro i h; simp at h
  | cons a t ih =>
    intro i h hn
    cases i with
    | zero =>
      cases a with
      | none => simp [noneCount]
      | some v => simp [List.getD_cons_zero] at hn
    | succ i =>
      have hrec := ih i (by simpa using h) (by simpa [List.getD_cons_succ] using hn)
      cases a with
      | none => simp only [noneCount]; omega
      | some v => simpa [noneCount] using hrec

theorem noneCount_set_some (l : List (Option σ)) :
    ∀ (i : Nat) (v : σ), i < l.length →
      noneCount (l.set i (some v)) =
        if (l.getD i none).isNone then noneCount l - 1 else noneCount l := by
  induction l with
  | nil => intro i v h; simp at h
  | cons a t ih =>
    intro i v h
    cases i with
    | zero =>
      cases a with
      | none => simp [noneCount]
      | some w => simp [noneCount]
    | succ i =>
      have hi : i < t.length := by simpa using h
      have hrec := ih i v hi
      rw [List.set_cons_succ, List.getD_cons_succ]
      cases a with
      | none =>
        rw [show noneCount (none :: t.set i (some v)) = noneCount (t.set i (some v)) + 1 from rfl,
          show noneCount (none :: t) = noneCount t + 1 from rfl, hrec]
        by_cases hg : (t.getD i none).isNone = true
        · have hpos := noneCount_pos_of_getD_none t i hi hg
          rw [if_pos hg, if_pos hg]
          omega
        · rw [if_neg hg, if_neg hg]
      | some w =>
        rw [show noneCount (some w :: t.set i (some v)) = noneCount (t.set i (some v)) from rfl,
          show noneCount (some w :: t) = noneCount t from rfl, hrec]

theorem allSome_iff_noneCount_zero (l : List (Option σ)) :
    l.all Option.isSome = true ↔ noneCount l = 0 := by
  induction l with
  | nil => simp [noneCount]
  | cons a t ih =>
    cases a with
    | none => simp [noneCount]
    | some v => simpa [noneCount] using ih

theorem combineSpecOut_shape (n : Nat) (evs : List (Fin n × Msg σ ε)) :
    ∀ latest : List (Option σ), latest.length = n →
      ∀ arr ∈ combineSpecOut latest evs, arr.length = n ∧ arr.all Option.isSome = true := by
  induction evs with
  | nil => intro latest hl arr h; simp [combineSpecOut] at h
  | cons ev evs ih =>
    intro latest hl arr h
    obtain ⟨i, m⟩ := ev
    cases m with
    | start => exact ih latest hl arr (by simpa [combineSpecOut] using h)
    | term e => exact ih latest hl arr (by simpa [combineSpecOut] using h)
    | data v =>
      simp only [combineSpecOut, List.mem_append] at h
      rcases h with h | h
      · by_cases hall : (latest.set i.val (some v)).all Option.isSome = true
        · rw [if_pos hall] at h
          simp at h
          subst h
          exact ⟨by simp [hl], hall⟩
        · rw [if_neg hall] at h
          simp at h
      · exact ih (latest.set i.val (some v)) (by simp [hl]) arr h

theorem combineRun_refines_spec (n : Nat) (evs : List (Fin n × Msg σ ε)) :
    ∀ st : CombineSt σ, st.vals.length = n → st.Nd = noneCount st.vals →
      combineDataOut (combineRun n st evs).2 = combineSpecOut st.vals evs := by
  induction evs with
  | nil => intro st hl hnd; simp [combineRun, combineDataOut, combineSpecOut]
  | cons ev evs ih =>
    intro st hl hnd
    obtain ⟨i, m⟩ := ev
    cases m with
    | start =>
      simp only [combineRun, combineOnMsg, combineSpecOut]
      rw [combineDataOut, List.filterMap_append]
      have hrec := ih { st with Ns := st.Ns - 1 } hl hnd
      rw [combineDataOut] at hrec
      rw [hrec]
      by_cases hns : st.Ns - 1 = 0 <;> simp [hns]
    | term e =>
      simp only [combineRun, combineOnMsg, combineSpecOut]
      rw [combineDataOut, List.filterMap_append]
      have hrec := ih { st with Ne := st.Ne - 1 } hl hnd
      rw [combineDataOut] at hrec
      rw [hrec]
      by_cases hne : st.Ne - 1 = 0 <;> simp [hne]
    | data v =>
      have hi : i.val < st.vals.length := by rw [hl]; exact i.isLt
      have hset := noneCount_set_some st.vals i.val v hi
      have hinv : (if st.Nd = 0 then 0
          else if (st.vals.getD i.val none).isNone then st.Nd - 1 else st.Nd) =
          noneCount (st.vals.set i.val (some v)) := by
        by_cases h0 : st.Nd = 0
        · rw [if_pos h0]
          by_cases hg : (st.vals.getD i.val none).isNone = true
          · exact absurd (noneCount_pos_of_getD_none st.vals i.val hi hg) (by omega)
          · rw [hset, if_neg hg]; omega
        · rw [if_neg h0]
          by_cases hg : (st.vals.getD i.val none).isNone = true
          · rw [if_pos hg, hset, if_pos hg, hnd]
          · rw [if_neg hg, hset, if_neg hg, hnd]
      have hrec := ih
        { st with Nd := noneCount (st.vals.set i.val (some v)),
                  vals := st.vals.set i.val (some v) }
        (by simp [hl]) rfl
      simp only [combineRun, combineOnMsg, combineSpecOut, hinv]
      rw [combineDataOut, List.filterMap_append]
      rw [combineDataOut] at hrec
      rw [hrec]
      by_cases hz : noneCount (st.vals.set i.val (some v)) = 0
      · rw [if_pos hz,
          if_pos ((allSome_iff_noneCount_zero (st.vals.set i.val (some v))).mpr hz)]
        simp
      · rw [if_neg hz,
          if_neg (fun hc => hz ((allSome_iff_noneCount_zero (st.vals.set i.val (some v))).mp hc))]
        simp

/-- C6: for combine over `n ≥ 1` sources, the DATA arrays delivered
downstream coincide with the spec-side latest-value join: nothing is
emitted until every source has delivered at least one value, and each
emission — the first one and every re-emission triggered by any single
source — is the full positional array of the current latest value of every
source; moreover every emitted array has one filled slot per source. -/
theorem combine_latest_C6 (σ ε : Type) (n : Nat) (_hn : 1 ≤ n)
    (evs : List (Fin n × Msg σ ε)) :
    combineDataOut (combineRun n (combineInit σ n) evs).2 =
      combineSpecOut (List.replicate n none) evs ∧
    ∀ arr ∈ combineDataOut (combineRun n (combineInit σ n) evs).2,
      arr.length = n ∧ arr.all Option.isSome = true := by
  have hmain : combineDataOut (combineRun n (combineInit σ n) evs).2 =
      combineSpecOut (List.replicate n none) evs :=
    combineRun_refines_spec n evs (combineInit σ n) (by simp [combineInit])
      (by simp [combineInit, noneCount_replicate])
  refine ⟨hmain, ?_⟩
  rw [hmain]
  exact combineSpecOut_shape n evs (List.replicate n none) (by simp)

/-- C6 witness: combine over two sources; the first array appears only
after both sources have spoken and equals the pair of latest values, and
the third data event re-emits the full refreshed array. -/
theorem combine_latest_C6_witness :
    combineDataOut (combineRun 2 (combineInit Nat 2)
        ([(⟨0, by omega⟩, .start), (⟨1, by omega⟩, .start), (⟨0, by omega⟩, .data 3),
          (⟨1, by omega⟩, .data 10), (⟨0, by omega⟩, .data 4)] : List (Fin 2 × Msg Nat Nat))).2 =
      combineSpecOut (List.replicate 2 none)
        ([(⟨0, by omega⟩, .start), (⟨1, by omega⟩, .start), (⟨0, by omega⟩, .data 3),
          (⟨1, by omega⟩, .data 10), (⟨0, by omega⟩, .data 4)] : List (Fin 2 × Msg Nat Nat)) ∧
    combineDataOut (combineRun 2 (combineInit Nat 2)
        ([(⟨0, by omega⟩, .start), (⟨1, by omega⟩, .start), (⟨0, by omega⟩, .data 3),
          (⟨1, by omega⟩, .data 10), (⟨0, by omega⟩, .data 4)] : List (Fin 2 × Msg Nat Nat))).2 =
      [[some 3, some 10], [some 4, some 10]] := by
  refine ⟨(combine_latest_C6 Nat Nat 2 (by decide) _).1, ?_⟩
  decide

theorem concatFold_data_term (n k : Nat) (L : List α) :
    concatFold n k (L.map .data ++ [.term (none : Option ε)]) =
      (k + 1, L.map (fun v => ConcatEff.down (.data v)) ++
        (if k + 1 = n then [.down (.term none)] else [.subscribe (k + 1)])) := by
  induction L with
  | nil => simp [concatFold, concatOnMsg]
  | cons v L ih => simp [concatFold, concatOnMsg, ih]

theorem concatFold_srcTrace (n k : Nat) (L : List α) :
    concatFold n k (srcTrace (ε := ε) L) =
      (k + 1, (if k = 0 then [ConcatEff.down .start] else [.upCur .pull]) ++
        L.map (fun v => ConcatEff.down (.data v)) ++
        (if k + 1 = n then [.down (.term none)] else [.subscribe (k + 1)])) := by
  simp [srcTrace, concatFold, concatOnMsg, concatFold_data_term]

theorem concatGo_srcTraces (n : Nat) (Ls : List (List α)) :
    ∀ k, concatGo n k (Ls.map (srcTrace (ε := ε))) = concatSegs n k Ls := by
  induction Ls with
  | nil => intro k; rfl
  | cons L Ls ih =>
    intro k
    simp [concatGo, concatFold_srcTrace, concatSegs, ih]

theorem concatDown_append (a b : List (ConcatEff α ε)) :
    concatDown (a ++ b) = concatDown a ++ concatDown b := by
  simp [concatDown, List.filterMap_append]

theorem concatDown_nil : concatDown ([] : List (ConcatEff α ε)) = [] := rfl

theorem concatDown_down (m : Msg α ε) : concatDown [ConcatEff.down m] = [m] := rfl

theorem concatDown_upCur (t : TMsg) : concatDown ([.upCur t] : List (ConcatEff α ε)) = [] := rfl

theorem concatDown_subscribe (j : Nat) :
    concatDown ([.subscribe j] : List (ConcatEff α ε)) = [] := rfl

theorem concatDown_subscribe_cons (j : Nat) (effs : List (ConcatEff α ε)) :
    concatDown (.subscribe j :: effs) = concatDown effs := rfl

theorem concatSegs_nil (n k : Nat) : concatSegs (α := α) (ε := ε) n k [] = [] := rfl

theorem concatDown_dataSeg (L : List α) :
    concatDown (L.map (fun v => ConcatEff.down (.data v)) : List (ConcatEff α ε)) =
      L.map .data := by
  induction L with
  | nil => rfl
  | cons v L ih => simp [concatDown] at ih ⊢; exact ih

theorem concatDown_segs (n : Nat) (Ls : List (List α)) :
    ∀ k, Ls ≠ [] → k + Ls.length = n →
      concatDown (concatSegs (ε := ε) n k Ls) =
        (if k = 0 then [Msg.start] else []) ++ Ls.flatten.map .data ++ [.term none] := by
  induction Ls with
  | nil => intro k h; exact absurd rfl h
  | cons L Ls ih =>
    intro k _ hlen
    cases Ls with
    | nil =>
      have h1 : k + 1 = n := by simpa using hlen
      rw [show concatSegs (ε := ε) n k [L] =
          (if k = 0 then [ConcatEff.down .start] else [.upCur .pull])
          ++ L.map (fun v => ConcatEff.down (.data v))
          ++ (if k + 1 = n then [.down (.term none)] else [.subscribe (k + 1)])
          ++ concatSegs n (k + 1) [] from rfl]
      rw [if_pos h1]
      rw [concatDown_append, concatDown_append, concatDown_append, concatDown_dataSeg]
      by_cases hk : k = 0
      · rw [if_pos hk, if_pos hk, concatDown_down]
        simp [concatDown_down, concatDown_nil, concatDown_append, concatSegs_nil]
      · rw [if_neg hk, if_neg hk, concatDown_upCur]
        simp [concatDown_down, concatDown_nil, concatDown_append, concatSegs_nil]
    | cons L2 Ls2 =>
      have h1 : ¬k + 1 = n := by
        simp only [List.length_cons] at hlen
        omega
      have hrec := ih (k + 1) (by simp) (by simp only [List.length_cons] at hlen ⊢; omega)
      rw [if_neg (by omega : ¬k + 1 = 0)] at hrec
      rw [show concatSegs (ε := ε) n k (L :: L2 :: Ls2) =
          (if k = 0 then [ConcatEff.down .start] else [.upCur .pull])
          ++ L.map (fun v => ConcatEff.down (.data v))
          ++ (if k + 1 = n then [.down (.term none)] else [.subscribe (k + 1)])
          ++ concatSegs n (k + 1) (L2 :: Ls2) from rfl]
      rw [if_neg h1]
      rw [concatDown_append, concatDown_append, concatDown_append, concatDown_dataSeg,
        concatDown_subscribe, hrec]
      by_cases hk : k = 0
      · rw [if_pos hk, if_pos hk, concatDown_down]
        simp
      · rw [if_neg hk, if_neg hk, concatDown_upCur]
        simp

/-- C7: concat over well-formed finite sources.  The whole effect trace
decomposes into strictly sequential per-source segments
(`concatSegs`): source `i + 1` is subscribed only by the effect of source
`i`'s END, so `b` never starts before `a` has ended; the messages
delivered downstream are one START followed by the concatenation of the
sources' data sequences and one final END; a START from any source other
than the first is answered by a synthetic pull to that source instead of a
second downstream START; and a subscription effect can only ever arise
from an END message. -/
theorem concat_sequential_C7 (α ε : Type) (Ls : List (List α)) (hne : Ls ≠ []) :
    concatRunTraces Ls.length (Ls.map (srcTrace (ε := ε))) =
      .subscribe 0 :: concatSegs Ls.length 0 Ls ∧
    concatDown (concatRunTraces Ls.length (Ls.map (srcTrace (ε := ε)))) =
      .start :: Ls.flatten.map .data ++ [.term none] ∧
    (∀ idx, idx ≠ 0 →
      concatOnMsg (α := α) (ε := ε) Ls.length idx .start = (idx, [.upCur .pull])) ∧
    (∀ (idx j : Nat) (m : Msg α ε),
      ConcatEff.subscribe j ∈ (concatOnMsg Ls.length idx m).2 → ∃ e, m = .term e) := by
  have hn : Ls.length ≠ 0 := by
    intro h
    exact hne (List.eq_nil_of_length_eq_zero h)
  have h1 : concatRunTraces Ls.length (Ls.map (srcTrace (ε := ε))) =
      .subscribe 0 :: concatSegs Ls.length 0 Ls := by
    rw [concatRunTraces, if_neg hn, concatGo_srcTraces]
  refine ⟨h1, ?_, ?_, ?_⟩
  · rw [h1]
    have hsegs := concatDown_segs (ε := ε) Ls.length Ls 0 hne (by omega)
    rw [if_pos rfl] at hsegs
    rw [concatDown_subscribe_cons, hsegs]
    simp
  · intro idx h
    simp [concatOnMsg, h]
  · intro idx j m hmem
    cases m with
    | start =>
      by_cases hidx : idx = 0 <;> simp [concatOnMsg, hidx] at hmem
    | data v => simp [concatOnMsg] at hmem
    | term e => exact ⟨e, rfl⟩

/-- C7 witness: concat of the pull sources `[10, 20, 30]` and `[7, 8]`
(the example of the source's doc comment). -/
theorem concat_sequential_C7_witness :
    concatDown (concatRunTraces 2
        [srcTrace [10, 20, 30], srcTrace ([7, 8] : List Nat)]) =
      ([.start, .data 10, .data 20, .data 30, .data 7, .data 8, .term none] :
        List (Msg Nat Nat)) ∧
    concatOnMsg (α := Nat) (ε := Nat) 2 1 .start = (1, [.upCur .pull]) := by
  have h := concat_sequential_C7 Nat Nat [[10, 20, 30], [7, 8]] (by decide)
  constructor
  · have h2 := h.2.1
    simpa using h2
  · exact h.2.2.1 1 (by decide)

theorem subUpCount_append (a b : List (ShareEff α ε)) :
    subUpCount (a ++ b) = subUpCount a + subUpCount b := by
  induction a with
  | nil => simp [subUpCount]
  | cons e es ih =>
    cases e with
    | subscribeUp => simp [subUpCount, ih]; omega
    | deliver k m => simp [subUpCount, ih]
    | upCall t => simp [subUpCount, ih]

theorem subUpCount_map_deliver (l : List Nat) (m : Msg α ε) :
    subUpCount (l.map fun k => ShareEff.deliver k m) = 0 := by
  induction l with
  | nil => rfl
  | cons k l ih => simpa [subUpCount] using ih

theorem subUpCount_step (st : ShareSt) (e : ShareEv α ε) :
    subUpCount (shareStep st e).2 =
      (match e with | .attach _ => if st.sinks = [] then 1 else 0 | _ => 0) := by
  cases e with
  | attach k =>
    by_cases h : st.sinks = []
    · simp [shareStep, h, subUpCount]
    · have hlen : ¬(st.sinks ++ [k]).length = 1 := by
        simp only [List.length_append, List.length_cons, List.length_nil]
        have : st.sinks.length ≠ 0 := fun hc => h (List.eq_nil_of_length_eq_zero hc)
        omega
      simp [shareStep, hlen, h, subUpCount]
  | up m =>
    cases m with
    | start =>
      cases hst : st.starter <;> simp [shareStep, hst, subUpCount]
    | data v => simp [shareStep, subUpCount_map_deliver]
    | term e => simp [shareStep, subUpCount_map_deliver]
  | tb k t =>
    cases t with
    | pull => simp [shareStep, subUpCount]
    | cancel =>
      by_cases h : st.sinks.erase k = [] <;> simp [shareStep, h, subUpCount]

theorem shareRun_subUp (evs : List (ShareEv α ε)) :
    ∀ st : ShareSt, subUpCount (shareRun st evs).2 = attachesAtEmpty st evs := by
  induction evs with
  | nil => intro st; rfl
  | cons e evs ih =>
    intro st
    simp only [shareRun, attachesAtEmpty, subUpCount_append, subUpCount_step, ih]

theorem shareStep_no_data_deliver (st : ShareSt) (e : ShareEv α ε)
    (h : isUpData e = false) (k : Nat) (v : α) :
    ShareEff.deliver k (.data v) ∉ (shareStep st e).2 := by
  cases e with
  | attach j =>
    by_cases hl : st.sinks = [] <;> simp [shareStep, hl]
  | up m =>
    cases m with
    | start => cases hst : st.starter <;> simp [shareStep, hst]
    | data w => simp [isUpData] at h
    | term e' => simp [shareStep]
  | tb j t =>
    cases t with
    | pull => simp [shareStep]
    | cancel =>
      by_cases hl : st.sinks.erase j = [] <;> simp [shareStep, hl]

theorem shareRun_no_data_deliver (evs : List (ShareEv α ε)) :
    ∀ st : ShareSt, (∀ e ∈ evs, isUpData e = false) →
      ∀ (k : Nat) (v : α), ShareEff.deliver k (.data v) ∉ (shareRun st evs).2 := by
  induction evs with
  | nil => intro st _ k v h; simp [shareRun] at h
  | cons e evs ih =>
    intro st h k v hmem
    simp only [shareRun, List.mem_append] at hmem
    rcases hmem with hmem | hmem
    · exact shareStep_no_data_deliver st e (h e (by simp)) k v hmem
    · exact ih (shareStep st e).1 (fun x hx => h x (by simp [hx])) k v hmem

/-- C8: share starts its upstream exactly once per empty-registry attach —
over any event trace, the number of upstream subscriptions equals the
number of attaches that found the sink registry empty, so any number of
sinks attaching while the upstream is live (registry nonempty) never
re-invoke it, and an attach after the registry emptied starts a brand-new
upstream invocation; every upstream DATA is broadcast, with the same
payload, to every currently attached sink in attach order; a talkback
cancel detaches exactly that sink and sends the upstream cancellation
precisely when the registry empties; an attach on an empty registry only
subscribes the upstream and delivers nothing (no replay) — indeed no
effect trace without upstream DATA events ever delivers a DATA message to
any sink. -/
theorem share_single_upstream_C8 (α ε : Type) :
    (∀ (st : ShareSt) (evs : List (ShareEv α ε)),
      subUpCount (shareRun st evs).2 = attachesAtEmpty st evs) ∧
    (∀ (st : ShareSt) (v : α),
      shareStep (ε := ε) st (.up (.data v)) =
        (st, st.sinks.map fun k => .deliver k (.data v))) ∧
    (∀ (st : ShareSt) (k : Nat),
      shareStep (α := α) (ε := ε) st (.tb k .cancel) =
        ({ st with sinks := st.sinks.erase k },
          if st.sinks.erase k = [] then [.upCall .cancel] else [])) ∧
    (∀ (k : Nat) (so : Option Nat),
      shareStep (α := α) (ε := ε) ⟨[], so⟩ (.attach k) =
        (⟨[k], some k⟩, [.subscribeUp])) ∧
    (∀ (st : ShareSt) (evs : List (ShareEv α ε)), (∀ e ∈ evs, isUpData e = false) →
      ∀ (k : Nat) (v : α), ShareEff.deliver k (.data v) ∉ (shareRun st evs).2) := by
  refine ⟨fun st evs => shareRun_subUp evs st, fun st v => rfl, fun st k => rfl,
    fun k so => rfl, fun st evs h k v => shareRun_no_data_deliver evs st h k v⟩

/-- C8 witness: two sinks attach while the upstream is live (one upstream
subscription in total), sink 1 detaches harmlessly, sink 2's detach
empties the registry and cancels upstream, and a fresh attach after that
re-subscribes (two subscriptions) while replaying no data. -/
theorem share_single_upstream_C8_witness :
    subUpCount (shareRun (⟨[], none⟩ : ShareSt)
        ([.attach 1, .up .start, .attach 2, .up (.data 5), .tb 1 .cancel, .tb 2 .cancel,
          .attach 3] : List (ShareEv Nat Nat))).2 =
      attachesAtEmpty (⟨[], none⟩ : ShareSt)
        ([.attach 1, .up .start, .attach 2, .up (.data 5), .tb 1 .cancel, .tb 2 .cancel,
          .attach 3] : List (ShareEv Nat Nat)) ∧
    ShareEff.deliver 3 (.data 5) ∉
      (shareRun (⟨[], none⟩ : ShareSt)
        ([.attach 1, .tb 1 .cancel, .attach 3] : List (ShareEv Nat Nat))).2 := by
  refine ⟨(share_single_upstream_C8 Nat Nat).1 _ _, ?_⟩
  exact (share_single_upstream_C8 Nat Nat).2.2.2.2 _ _ (by decide) 3 5

theorem subjDispatch_delivered_mem (f : Nat → List SubjAct) (snap : List Nat) :
    ∀ (live : List Nat) (x : Nat), x ∈ (subjDispatch f snap live).2 → x ∈ snap := by
  induction snap with
  | nil => intro live x h; simp [subjDispatch] at h
  | cons k rest ih =>
    intro live x h
    by_cases hk : k ∈ live
    · simp only [subjDispatch, if_pos hk] at h
      rcases List.mem_cons.mp h with h | h
      · simp [h]
      · exact List.mem_cons_of_mem _ (ih _ x h)
    · simp only [subjDispatch, if_neg hk] at h
      exact List.mem_cons_of_mem _ (ih live x h)

theorem subjDispatch_skips_detached (f : Nat → List SubjAct) (j : Nat)
    (hno : ∀ (k : Nat) (l : List Nat), j ∉ l → j ∉ applyActs (f k) l) (snap : List Nat) :
    ∀ live : List Nat, j ∉ live → j ∉ (subjDispatch f snap live).2 := by
  induction snap with
  | nil => intro live h hc; simp [subjDispatch] at hc
  | cons k rest ih =>
    intro live h hc
    by_cases hk : k ∈ live
    · simp only [subjDispatch, if_pos hk] at hc
      rcases List.mem_cons.mp hc with hc | hc
      · exact h (hc ▸ hk)
      · exact ih (applyActs (f k) live) (hno k live h) hc
    · simp only [subjDispatch, if_neg hk] at hc
      exact ih live h hc

theorem subjDispatch_append (f : Nat → List SubjAct) (s1 : List Nat) :
    ∀ (s2 live : List Nat),
      subjDispatch f (s1 ++ s2) live =
        ((subjDispatch f s2 (subjDispatch f s1 live).1).1,
          (subjDispatch f s1 live).2 ++ (subjDispatch f s2 (subjDispatch f s1 live).1).2) := by
  induction s1 with
  | nil => intro s2 live; simp [subjDispatch]
  | cons k s1 ih =>
    intro s2 live
    by_cases hk : k ∈ live <;>
      simp [subjDispatch, hk, ih]

/-- C10: the subject's push dispatches against the snapshot taken at push
time with a liveness re-check before each delivery.  Hence every sink that
receives the message is in the snapshot (so a sink attached during the
dispatch, being absent from the snapshot, never receives it), and a sink
`j` standing later in the snapshot that the reactions of the earlier
deliveries have detached — and that no reaction re-attaches — never
receives it either. -/
theorem subject_snapshot_dispatch_C10 (f : Nat → List SubjAct) :
    (∀ (snap live : List Nat) (x : Nat), x ∈ (subjDispatch f snap live).2 → x ∈ snap) ∧
    (∀ (sinks : List Nat) (j : Nat), j ∉ sinks → j ∉ (subjectPush sinks f).2) ∧
    (∀ (pre post : List Nat) (j : Nat),
      (∀ (k : Nat) (l : List Nat), j ∉ l → j ∉ applyActs (f k) l) →
      j ∉ (subjDispatch f pre (pre ++ j :: post)).1 →
      j ∉ pre →
      j ∉ (subjectPush (pre ++ j :: post) f).2) := by
  refine ⟨subjDispatch_delivered_mem f, ?_, ?_⟩
  · intro sinks j hj hc
    exact hj (subjDispatch_delivered_mem f sinks sinks j hc)
  · intro pre post j hno hlive hpre hc
    rw [subjectPush, subjDispatch_append] at hc
    rcases List.mem_append.mp hc with hc | hc
    · exact hpre (subjDispatch_delivered_mem f pre _ j hc)
    · simp only [subjDispatch, if_neg hlive] at hc
      exact subjDispatch_skips_detached f j hno post _ hlive hc

theorem subjWitnessActs_no_readd (k : Nat) (l : List Nat) (h : 2 ∉ l) :
    2 ∉ applyActs (subjWitnessActs k) l := by
  have hval : applyActs (subjWitnessActs k) l =
      if k = 1 then (l.erase 2) ++ [9] else l := by
    by_cases hk : k = 1 <;> simp [subjWitnessActs, applyActs, hk]
  rw [hval]
  by_cases hk : k = 1
  · rw [if_pos hk]
    simp only [List.mem_append, List.mem_singleton]
    rintro (hc | hc)
    · exact h (List.mem_of_mem_erase hc)
    · exact absurd hc (by decide)
  · rw [if_neg hk]
    exact h

/-- C10 witness: snapshot `[1, 2, 3]`, where delivering to sink 1 detaches
sink 2 and attaches a fresh sink 9.  A delivered sink (1) is in the
snapshot; the freshly attached sink 9 is never delivered; and sink 2,
detached by sink 1's callback before its turn, is never delivered. -/
theorem subject_snapshot_dispatch_C10_witness :
    (1 : Nat) ∈ [1, 2, 3] ∧
    (9 : Nat) ∉ (subjectPush [1, 2, 3] subjWitnessActs).2 ∧
    (2 : Nat) ∉ (subjectPush ([1] ++ 2 :: [3]) subjWitnessActs).2 := by
  refine ⟨(subject_snapshot_dispatch_C10 subjWitnessActs).1 [1, 2, 3] [1, 2, 3] 1 (by decide),
    (subject_snapshot_dispatch_C10 subjWitnessActs).2.1 [1, 2, 3] 9 (by decide),
    (subject_snapshot_dispatch_C10 subjWitnessActs).2.2 [1] [3] 2
      subjWitnessActs_no_readd (by decide) (by decide)⟩

/-- C2 counterexample: the pullable side of `sample` delivers an
END-with-error `7`.  The operator cancels the listenable sibling but then
calls `sink(2)` with no payload, so the downstream END carries no error:
the claimed `END(some 7)` is never forwarded. -/
theorem sample_drops_error_C2_cex :
    sampleOnPull (α := Nat) (.term (some 7)) = [.upL .cancel, .down (.term none)] ∧
    SampleEff.down (.term (some 7)) ∉ sampleOnPull (α := Nat) (.term (some 7)) := by
  refine ⟨rfl, ?_⟩
  decide

/-- C2 amended: none of the three operators forwards the error payload of
an upstream END-with-error.  `sample` does cancel the sibling side at once
but forwards a payload-less END in both directions of arrival; `merge` and
`combine` merely decrement their end countdowns — they cancel no sibling
talkback and send nothing downstream until every source has ended, at
which point they emit an END with no error. -/
theorem error_swallowed_C2 (α σ ε : Type) :
    (∀ e : ε, sampleOnPull (α := α) (.term (some e)) = [.upL .cancel, .down (.term none)]) ∧
    (∀ e : ε, sampleOnListen (α := α) (.term (some e)) = [.upP .cancel, .down (.term none)]) ∧
    (∀ (n : Nat) (st : MergeSt) (i : Nat) (e : ε),
      (mergeOnMsg (α := α) n st i (.term (some e))).2 =
        if st.endCount + 1 = n then [.down (.term none)] else []) ∧
    (∀ (st : CombineSt σ) (i : Nat) (e : ε),
      (combineOnMsg (ε := ε) st i (.term (some e))).2 =
        if st.Ne - 1 = 0 then [.down (.term none)] else []) := by
  exact ⟨fun _ => rfl, fun _ => rfl, fun _ _ _ _ => rfl, fun _ _ _ => rfl⟩

/-- C4 counterexample: the outer source ends with error `7` while an inner
source is active (`hasInner = true`).  Flatten forwards the error END
downstream at once, but its effect list contains no cancellation of the
still-live inner source, contradicting the claim's "the currently active
inner source, if any, is cancelled". -/
theorem flatten_no_sibling_cancel_C4_cex :
    flattenStep (α := Nat) (ε := Nat) ⟨false, true, true⟩ (.outerTerm (some 7)) =
      (⟨false, true, true⟩, [.down (.term (some 7))]) ∧
    FlatEff.cancelInner ∉
      (flattenStep (α := Nat) (ε := Nat) ⟨false, true, true⟩ (.outerTerm (some 7))).2 := by
  refine ⟨rfl, ?_⟩
  decide

/-- C4 amended: flatten forwards an inner or outer END-with-error
downstream immediately and verbatim, but cancels nothing: an inner error
leaves a still-live outer source uncancelled, and an outer error leaves
the currently active inner source uncancelled. -/
theorem flatten_error_forwarding_C4 (α ε : Type) (st : FlatSt) (e : ε) :
    flattenStep (α := α) st (.innerTerm (some e)) = (st, [.down (.term (some e))]) ∧
    FlatEff.cancelOuter ∉ (flattenStep (α := α) st (.innerTerm (some e))).2 ∧
    flattenStep (α := α) st (.outerTerm (some e)) = (st, [.down (.term (some e))]) ∧
    FlatEff.cancelInner ∉ (flattenStep (α := α) st (.outerTerm (some e))).2 := by
  refine ⟨rfl, ?_, rfl, ?_⟩ <;> simp [flattenStep]

/-- C4 witness: the amended behaviour at a concrete state and error. -/
theorem flatten_error_forwarding_C4_witness :
    flattenStep (α := Nat) (ε := Nat) ⟨false, true, true⟩ (.innerTerm (some 3)) =
      (⟨false, true, true⟩, [.down (.term (some 3))]) ∧
    FlatEff.cancelOuter ∉
      (flattenStep (α := Nat) (ε := Nat) ⟨false, true, true⟩ (.innerTerm (some 3))).2 :=
  ⟨(flatten_error_forwarding_C4 Nat Nat ⟨false, true, true⟩ 3).1,
    (flatten_error_forwarding_C4 Nat Nat ⟨false, true, true⟩ 3).2.1⟩

end Callbag
